import Mathlib

/-!
Verification of the bounded history (undo/redo) container of hookify-react,
a shallow embedding of src/hooks/state-management/useHistory.ts.

The hook keeps three mutable cells:
  historyRef : Array<T>   (the timeline, seeded with the resolved default value)
  pointerRef : number     (index into the timeline, seeded 0)
  state      : T          (React useState cell, the externally visible value)
and exposes set / back / forward / go.  We embed the state as a structure and
each operation as a pure function on it.  JavaScript numbers that hold indices
are embedded as Int (the code computes length - 1, which is -1 on an empty
array); JS array reads out of bounds yield undefined, embedded as Option.none.
Values are an arbitrary type with decidable equality, matching the identity or
primitive comparison performed by the JS strict-inequality operator on the
opaque values the container stores.
-/

namespace UseHistory

/-- State of one useHistory hook instance: the history timeline, the pointer
into it, and the separately stored React state cell (the visible value). -/
structure HistState (T : Type) where
  timeline : List T
  pointer : Int
  state : T
deriving DecidableEq, Repr

variable {T : Type} [DecidableEq T]

/-- JS array read with an Int index: out-of-range (negative or beyond the
length) yields undefined, embedded as none. -/
def jsGet (l : List T) (i : Int) : Option T :=
  if 0 ≤ i then l.get? i.toNat else none

/-- JS array read with a fallback used where the source would store the read
result directly; under the pointer invariants proved below the read is always
in range and the fallback is irrelevant. -/
def jsGetD (l : List T) (i : Int) (d : T) : T :=
  (jsGet l i).getD d

/-- The list kept by JS splice(start) with one argument: the prefix before the
actual start position (negative start counts from the end, clamped at 0). -/
def jsSpliceKeep (l : List T) (start : Int) : List T :=
  if start < 0 then l.take (max ((l.length : Int) + start) 0).toNat
  else l.take start.toNat

/-- Embedding of the eviction loop
while (historyRef.current.length > capacity) historyRef.current.shift()
by structural recursion on the list.  (For capacity below 0 the JS loop would
spin forever once the array is empty; every claim below constrains capacity,
and on capacity at least 0 this function agrees with the loop exactly.) -/
def evictWhile (capacity : Int) : List T → List T
  | [] => []
  | x :: xs => if ((x :: xs).length : Int) > capacity then evictWhile capacity xs else x :: xs

set_option linter.unusedVariables false
set_option linter.unusedSectionVars false

/-- Construction, lines 11-17 of useHistory.ts: the resolved default value
seeds the timeline, the pointer starts at 0 and the state cell holds the same
value (the plain-value or pure-factory case; the factory call count is
modelled separately below). -/
def init (v : T) : HistState T :=
  ⟨[v], 0, v⟩

/-- Construction with the capacity option as in the hook signature:
the capacity is accepted but never validated nor consulted at construction. -/
def create (capacity : Int) (v : T) : HistState T :=
  ⟨[v], 0, v⟩

/-- Argument of set: a plain value or an updater function, which the code
resolves against the React state cell. -/
def resolve (v : T ⊕ (T → T)) (s : HistState T) : T :=
  match v with
  | .inl x => x
  | .inr f => f s.state

/-- Embedding of set (lines 19-37) after resolution.  Returns the pair of
(whether the mutation branch ran, next state).  The boolean is the observable
the spec calls the changed flag; the source signals the same information by
taking or skipping the mutation branch.  setState runs in both branches, so
the state cell always becomes the resolved value. -/
def setResolved (capacity : Int) (resolvedValue : T) (s : HistState T) : Bool × HistState T :=
  if jsGet s.timeline s.pointer ≠ some resolvedValue then
    let afterSplice :=
      if s.pointer < (s.timeline.length : Int) - 1
      then jsSpliceKeep s.timeline (s.pointer + 1)
      else s.timeline
    let afterPush := afterSplice ++ [resolvedValue]
    let afterEvict := evictWhile capacity afterPush
    (true, ⟨afterEvict, (afterEvict.length : Int) - 1, resolvedValue⟩)
  else
    (false, ⟨s.timeline, s.pointer, resolvedValue⟩)

/-- Embedding of set: resolve the value-or-updater, then mutate. -/
def set (capacity : Int) (v : T ⊕ (T → T)) (s : HistState T) : Bool × HistState T :=
  setResolved capacity (resolve v s) s

/-- Embedding of back (lines 39-43): guarded pointer decrement; the guard is
pointer <= 0 and the early return changes nothing. -/
def back (s : HistState T) : Bool × HistState T :=
  if s.pointer ≤ 0 then (false, s)
  else (true, ⟨s.timeline, s.pointer - 1, jsGetD s.timeline (s.pointer - 1) s.state⟩)

/-- Embedding of forward (lines 45-49): guarded pointer increment. -/
def forward (s : HistState T) : Bool × HistState T :=
  if s.pointer ≥ (s.timeline.length : Int) - 1 then (false, s)
  else (true, ⟨s.timeline, s.pointer + 1, jsGetD s.timeline (s.pointer + 1) s.state⟩)

/-- Embedding of go (lines 51-55).  Note the source guard rejects
index >= length - 1, so the last timeline index is rejected too. -/
def go (index : Int) (s : HistState T) : Bool × HistState T :=
  if index < 0 ∨ index ≥ (s.timeline.length : Int) - 1 then (false, s)
  else (true, ⟨s.timeline, index, jsGetD s.timeline index s.state⟩)

/-- One operation issued against the hook. -/
inductive HOp (T : Type) where
  | write : T → HOp T
  | writeF : (T → T) → HOp T
  | back : HOp T
  | forward : HOp T
  | go : Int → HOp T

/-- Apply one operation to the state. -/
def step (capacity : Int) (s : HistState T) : HOp T → HistState T
  | .write v => (set capacity (.inl v) s).2
  | .writeF f => (set capacity (.inr f) s).2
  | .back => (back s).2
  | .forward => (forward s).2
  | .go i => (go i s).2

/-- Apply a sequence of operations in order. -/
def run (capacity : Int) (ops : List (HOp T)) (s : HistState T) : HistState T :=
  ops.foldl (step capacity) s

/-- The data-model invariants of the spec, section 3: nonempty timeline within
capacity, pointer in range, and the state cell equal to the timeline entry at
the pointer. -/
def validState (capacity : Int) (s : HistState T) : Prop :=
  1 ≤ s.timeline.length ∧ (s.timeline.length : Int) ≤ capacity ∧
    0 ≤ s.pointer ∧ s.pointer < (s.timeline.length : Int) ∧
    jsGet s.timeline s.pointer = some s.state

instance (capacity : Int) (s : HistState T) : Decidable (validState capacity s) := by
  unfold validState
  infer_instance

/-- Modelled from the spec: the create contract of section 4.1 for the variant
missing from src, with capacity validation failing below 1 (InvalidCapacity,
no store produced, embedded as none). -/
def createSpec (capacity : Int) (v : T) : Option (HistState T) :=
  if capacity < 1 then none else some ⟨[v], 0, v⟩

/-- Modelled from the spec: goto with the inclusive upper bound the spec fixes
as the correct contract (succeeds exactly on 0 <= index < length). -/
def goSpec (index : Int) (s : HistState T) : Bool × HistState T :=
  if 0 ≤ index ∧ index < (s.timeline.length : Int) then
    (true, ⟨s.timeline, index, jsGetD s.timeline index s.state⟩)
  else (false, s)

/-- First render of the hook with a factory default value, with the factory
modelled as a function of its call number and the number of calls returned
beside the state.  Lines 11-14 resolve the factory in the component body
(first call); line 15 passes the raw function to useState, which treats a
function argument as a lazy initializer and calls it once more on mount
(second call). -/
def initRenderFactory (factory : Nat → T) : HistState T × Nat :=
  let resolvedDefaultValue := factory 0
  let stateInit := factory 1
  (⟨[resolvedDefaultValue], 0, stateInit⟩, 2)

/-- Reading a valid index yields the underlying list entry. -/
lemma jsGet_eq_get? (l : List T) (i : Int) (hi : 0 ≤ i) : jsGet l i = l.get? i.toNat := by
  simp [jsGet, hi]

/-- A read at a valid index is some entry. -/
lemma jsGet_exists_of_lt (l : List T) (i : Int) (hi : 0 ≤ i) (hlt : i < (l.length : Int)) :
    ∃ x, jsGet l i = some x := by
  rw [jsGet_eq_get? l i hi]
  have h : i.toNat < l.length := by omega
  exact ⟨l.get ⟨i.toNat, h⟩, List.get?_eq_get h⟩

/-- Reading the appended last element. -/
lemma jsGet_concat (xs : List T) (a : T) : jsGet (xs ++ [a]) (xs.length : Int) = some a := by
  rw [jsGet_eq_get? _ _ (by positivity)]
  simp [List.get?_concat_length]

/-- The eviction loop is a drop from the front. -/
lemma evictWhile_eq_drop (capacity : Int) (hc : 0 ≤ capacity) (l : List T) :
    evictWhile capacity l = l.drop (((l.length : Int) - capacity).toNat) := by
  induction l with
  | nil => simp [evictWhile]
  | cons x xs ih =>
    rw [evictWhile]
    by_cases h : ((x :: xs).length : Int) > capacity
    · rw [if_pos h, ih]
      have hk : (((x :: xs).length : Int) - capacity).toNat =
          (((xs.length : Int) - capacity)).toNat + 1 := by
        simp only [List.length_cons] at h ⊢
        omega
      rw [hk, List.drop_succ_cons]
    · rw [if_neg h]
      have hk : (((x :: xs).length : Int) - capacity).toNat = 0 := by
        simp only [List.length_cons] at h ⊢
        omega
      rw [hk, List.drop_zero]

/-- Length of the evicted timeline: the minimum of the length and capacity. -/
lemma evictWhile_length (capacity : Int) (hc : 0 ≤ capacity) (l : List T) :
    ((evictWhile capacity l).length : Int) = min (l.length : Int) capacity := by
  rw [evictWhile_eq_drop capacity hc, List.length_drop]
  omega

/-- Evicting a timeline that ends in a just-pushed value keeps that value and
drops only older entries, provided capacity is at least 1. -/
lemma evictWhile_concat (capacity : Int) (hc : 1 ≤ capacity) (xs : List T) (a : T) :
    evictWhile capacity (xs ++ [a]) =
      xs.drop ((((xs ++ [a]).length : Int) - capacity).toNat) ++ [a] := by
  rw [evictWhile_eq_drop capacity (by omega)]
  have hk : (((xs ++ [a]).length : Int) - capacity).toNat ≤ xs.length := by
    simp only [List.length_append, List.length_singleton]
    omega
  exact List.drop_append_of_le_length hk

/-- Normal form of the mutating branch of set: truncate the timeline to the
pointer inclusive, append the resolved value, evict from the front, and point
at the tail. -/
lemma setResolved_mutate (capacity : Int) (s : HistState T) (rv : T)
    (hp : 0 ≤ s.pointer) (hlt : s.pointer < (s.timeline.length : Int))
    (hne : jsGet s.timeline s.pointer ≠ some rv) :
    setResolved capacity rv s =
      (true, ⟨evictWhile capacity (s.timeline.take (s.pointer.toNat + 1) ++ [rv]),
              ((evictWhile capacity (s.timeline.take (s.pointer.toNat + 1) ++ [rv])).length : Int) - 1,
              rv⟩) := by
  unfold setResolved
  rw [if_pos hne]
  by_cases h2 : s.pointer < (s.timeline.length : Int) - 1
  · have hsp : jsSpliceKeep s.timeline (s.pointer + 1) = s.timeline.take (s.pointer.toNat + 1) := by
      unfold jsSpliceKeep
      rw [if_neg (by omega)]
      congr 1
      omega
    simp only [if_pos h2, hsp]
  · have hsp : s.timeline.take (s.pointer.toNat + 1) = s.timeline := by
      apply List.take_of_length_le
      omega
    simp only [if_neg h2, hsp]

/-- The freshly constructed store satisfies the data-model invariants for
every capacity of at least 1. -/
lemma validState_init (capacity : Int) (hc : 1 ≤ capacity) (v : T) :
    validState capacity (init v) := by
  refine ⟨by simp [init], by simpa [init] using hc, by simp [init], by simp [init], ?_⟩
  simp [init, jsGet]

/-- The mutating branch of set re-establishes the data-model invariants. -/
lemma validState_setResolved (capacity : Int) (hc : 1 ≤ capacity) (s : HistState T)
    (hs : validState capacity s) (rv : T) :
    validState capacity (setResolved capacity rv s).2 := by
  obtain ⟨h1, h2, h3, h4, h5⟩ := hs
  by_cases hne : jsGet s.timeline s.pointer ≠ some rv
  · rw [setResolved_mutate capacity s rv h3 h4 hne]
    have htake : (s.timeline.take (s.pointer.toNat + 1)).length = s.pointer.toNat + 1 := by
      rw [List.length_take]
      omega
    set xs := s.timeline.take (s.pointer.toNat + 1) with hxs
    have hconcat := evictWhile_concat capacity hc xs rv
    have hlen := evictWhile_length capacity (by omega) (xs ++ [rv])
    have hlenapp : (xs ++ [rv]).length = s.pointer.toNat + 2 := by
      simp [htake]
    refine ⟨?_, ?_, ?_, ?_, ?_⟩
    · simp only []
      omega
    · simp only []
      omega
    · simp only []
      omega
    · simp only []
      omega
    · simp only [hconcat]
      set k := (((xs ++ [rv]).length : Int) - capacity).toNat with hk
      have hkxs : k ≤ xs.length := by
        simp only [hlenapp] at hk
        omega
    -- the final index of the evicted timeline is the length of its dropped
    -- prefix, which is exactly where the pushed value sits
      have hidx : ((xs.drop k ++ [rv]).length : Int) - 1 = ((xs.drop k).length : Int) := by
        simp
      rw [hidx, jsGet_concat]
  · rw [setResolved]
    rw [if_neg hne]
    push_neg at hne
    exact ⟨h1, h2, h3, h4, hne⟩

/-- Every single operation preserves the data-model invariants. -/
lemma validState_step (capacity : Int) (hc : 1 ≤ capacity) (s : HistState T)
    (hs : validState capacity s) (op : HOp T) :
    validState capacity (step capacity s op) := by
  obtain ⟨h1, h2, h3, h4, h5⟩ := hs
  cases op with
  | write v => exact validState_setResolved capacity hc s ⟨h1, h2, h3, h4, h5⟩ _
  | writeF f => exact validState_setResolved capacity hc s ⟨h1, h2, h3, h4, h5⟩ _
  | back =>
    show validState capacity (back s).2
    rw [back]
    by_cases hg : s.pointer ≤ 0
    · rw [if_pos hg]
      exact ⟨h1, h2, h3, h4, h5⟩
    · rw [if_neg hg]
      obtain ⟨x, hx⟩ := jsGet_exists_of_lt s.timeline (s.pointer - 1) (by omega) (by omega)
      refine ⟨h1, h2, by simp only []; omega, by simp only []; omega, ?_⟩
      simp [jsGetD, hx]
  | forward =>
    show validState capacity (forward s).2
    rw [forward]
    by_cases hg : s.pointer ≥ (s.timeline.length : Int) - 1
    · rw [if_pos hg]
      exact ⟨h1, h2, h3, h4, h5⟩
    · rw [if_neg hg]
      obtain ⟨x, hx⟩ := jsGet_exists_of_lt s.timeline (s.pointer + 1) (by omega) (by omega)
      refine ⟨h1, h2, by simp only []; omega, by simp only []; omega, ?_⟩
      simp [jsGetD, hx]
  | go i =>
    show validState capacity (go i s).2
    rw [go]
    by_cases hg : i < 0 ∨ i ≥ (s.timeline.length : Int) - 1
    · rw [if_pos hg]
      exact ⟨h1, h2, h3, h4, h5⟩
    · rw [if_neg hg]
      push_neg at hg
      obtain ⟨x, hx⟩ := jsGet_exists_of_lt s.timeline i (by omega) (by omega)
      refine ⟨h1, h2, by simp only []; omega, by simp only []; omega, ?_⟩
      simp [jsGetD, hx]

/-- Every sequence of operations preserves the data-model invariants. -/
lemma validState_run (capacity : Int) (hc : 1 ≤ capacity) (s : HistState T)
    (hs : validState capacity s) (ops : List (HOp T)) :
    validState capacity (run capacity ops s) := by
  induction ops generalizing s with
  | nil => exact hs
  | cons op rest ih => exact ih _ (validState_step capacity hc s hs op)

end UseHistory

namespace UseHistoryClaims

open UseHistory

/-- C1: the claim says go succeeds on every index with 0 <= index < length,
the last index included.  The source guard (line 52) rejects
index >= length - 1, so the last index is refused: on timeline [10, 20] with
pointer 0, go 1 is a false-returning no-op while the spec contract moves the
pointer to 1 and returns true. -/
theorem c1_go_rejects_last_index :
    go 1 (⟨[10, 20], 0, 10⟩ : HistState Int) = (false, ⟨[10, 20], 0, 10⟩) ∧
      goSpec 1 (⟨[10, 20], 0, 10⟩ : HistState Int) = (true, ⟨[10, 20], 1, 20⟩) := by
  constructor
  · decide
  · decide

/-- C2 counterexample: the claim says construction with capacity 0 fails with
InvalidCapacity and produces no store.  The source (lines 7-17) never
validates capacity: constructing with capacity 0 produces a store with
timeline [5] and pointer 0, while the spec contract yields none. -/
theorem c2_counterexample_capacity_zero :
    create 0 (5 : Int) = ⟨[5], 0, 5⟩ ∧ createSpec 0 (5 : Int) = none := by
  constructor
  · decide
  · decide

/-- C2 amended: construction never validates capacity; it succeeds for every
capacity, zero and negative included, seeding timeline [v] with pointer 0, and
agrees with the spec contract exactly on capacity >= 1. -/
theorem c2_create_never_validates (capacity : Int) (v : Int) :
    create capacity v = ⟨[v], 0, v⟩ ∧
      (1 ≤ capacity → createSpec capacity v = some (create capacity v)) := by
  refine ⟨rfl, fun hc => ?_⟩
  rw [createSpec, if_neg (by omega)]
  rfl

/-- C2 witness at capacity 1. -/
theorem c2_witness :
    create 1 (0 : Int) = ⟨[0], 0, 0⟩ ∧ createSpec 1 (0 : Int) = some (create 1 (0 : Int)) :=
  ⟨(c2_create_never_validates 1 0).1, (c2_create_never_validates 1 0).2 (by decide)⟩

/-- C6: the claim says a factory default value is invoked exactly once.  The
source invokes it twice during the initial render alone: once in the component
body (lines 11-14) to seed the history ref, and once more by useState (line
15), which receives the raw function and calls it as a lazy initializer.
With the factory returning its own call number, the state cell is even seeded
from a different call than the timeline. -/
theorem c6_factory_called_twice :
    (initRenderFactory (fun _ => (7 : Int))).2 = 2 ∧
      initRenderFactory (fun _ => (7 : Int)) = (⟨[7], 0, 7⟩, 2) ∧
      initRenderFactory (fun n => (n : Int)) = (⟨[0], 0, 1⟩, 2) := by
  refine ⟨rfl, rfl, rfl⟩

/-- C7: a write whose resolved value equals the current value returns false
and leaves the state unchanged, for every state satisfying the data-model
invariants and for plain and updater-function writes alike. -/
theorem c7_equal_write_noop (capacity : Int) (s : HistState Int) (w : Int ⊕ (Int → Int))
    (hs : validState capacity s) (heq : resolve w s = s.state) :
    set capacity w s = (false, s) := by
  obtain ⟨h1, h2, h3, h4, h5⟩ := hs
  rw [UseHistory.set, heq, setResolved, if_neg (by rw [h5]; simp)]

/-- C7 witness: rewriting the current value 4 into a one-element store. -/
theorem c7_witness :
    set 1 (Sum.inl 4) (⟨[4], 0, 4⟩ : HistState Int) = (false, ⟨[4], 0, 4⟩) :=
  c7_equal_write_noop 1 ⟨[4], 0, 4⟩ (Sum.inl 4) (by decide) rfl

/-- C8: every write that reports a change leaves the pointer at the tail of
the timeline (pointer = length - 1), with no validity assumption needed: the
mutating branch ends by assigning exactly that (line 32). -/
theorem c8_pointer_at_tail (capacity : Int) (s : HistState Int) (w : Int ⊕ (Int → Int))
    (h : (set capacity w s).1 = true) :
    (set capacity w s).2.pointer = ((set capacity w s).2.timeline.length : Int) - 1 := by
  rw [UseHistory.set, setResolved] at h ⊢
  by_cases hg : jsGet s.timeline s.pointer ≠ some (resolve w s)
  · rw [if_pos hg]
  · rw [if_neg hg] at h
    exact absurd h (by simp)

/-- C8 witness: writing 1 over the fresh store seeded with 0. -/
theorem c8_witness :
    (set 10 (Sum.inl 1) (init (0 : Int))).2.pointer =
      (((set 10 (Sum.inl 1) (init (0 : Int))).2.timeline.length : Int)) - 1 :=
  c8_pointer_at_tail 10 (init 0) (Sum.inl 1) (by decide)

/-- C9: the navigation operations are embedded as total functions (they never
raise), and every invalid request the claim lists — undo at pointer 0, redo at
the last index, goto with a negative or out-of-range index — returns false,
leaves the state unchanged, and stays a no-op under any number of
repetitions. -/
theorem c9_invalid_navigation_noop (s : HistState Int) (i : Int) (n : Nat) :
    (s.pointer = 0 → back s = (false, s)) ∧
      (s.pointer = (s.timeline.length : Int) - 1 → forward s = (false, s)) ∧
      ((i < 0 ∨ (s.timeline.length : Int) ≤ i) → go i s = (false, s)) ∧
      (s.pointer = 0 → (fun t => (back t).2)^[n] s = s) ∧
      (s.pointer = (s.timeline.length : Int) - 1 → (fun t => (forward t).2)^[n] s = s) ∧
      ((i < 0 ∨ (s.timeline.length : Int) ≤ i) → (fun t => (go i t).2)^[n] s = s) := by
  have hb : s.pointer = 0 → back s = (false, s) := by
    intro h
    rw [back, if_pos (by omega)]
  have hf : s.pointer = (s.timeline.length : Int) - 1 → forward s = (false, s) := by
    intro h
    rw [forward, if_pos (by omega)]
  have hg : (i < 0 ∨ (s.timeline.length : Int) ≤ i) → go i s = (false, s) := by
    intro h
    rw [go, if_pos (by omega)]
  refine ⟨hb, hf, hg, fun h => ?_, fun h => ?_, fun h => ?_⟩
  · exact Function.iterate_fixed (by rw [hb h]) n
  · exact Function.iterate_fixed (by rw [hf h]) n
  · exact Function.iterate_fixed (by rw [hg h]) n

/-- C9 witness on the one-element store: undo at pointer 0, redo at the last
index and goto 3 are all no-ops, twice over. -/
theorem c9_witness :
    back (⟨[5], 0, 5⟩ : HistState Int) = (false, ⟨[5], 0, 5⟩) ∧
      forward (⟨[5], 0, 5⟩ : HistState Int) = (false, ⟨[5], 0, 5⟩) ∧
      go 3 (⟨[5], 0, 5⟩ : HistState Int) = (false, ⟨[5], 0, 5⟩) ∧
      (fun t => (back t).2)^[2] (⟨[5], 0, 5⟩ : HistState Int) = ⟨[5], 0, 5⟩ ∧
      (fun t => (forward t).2)^[2] (⟨[5], 0, 5⟩ : HistState Int) = ⟨[5], 0, 5⟩ ∧
      (fun t => (go 3 t).2)^[2] (⟨[5], 0, 5⟩ : HistState Int) = ⟨[5], 0, 5⟩ := by
  obtain ⟨h1, h2, h3, h4, h5, h6⟩ := c9_invalid_navigation_noop (⟨[5], 0, 5⟩ : HistState Int) 3 2
  exact ⟨h1 (by decide), h2 (by decide), h3 (by decide), h4 (by decide), h5 (by decide),
    h6 (by decide)⟩

/-- C3: every state-changing write produces exactly the truncate-append-evict
normal form with the pointer at the tail, and the two worked examples of the
spec — branch discard after two undos, and FIFO eviction at capacity 3 — come
out as stated. -/
theorem c3_write_normal_form :
    (∀ (capacity : Int) (s : HistState Int) (v : Int), 1 ≤ capacity →
      validState capacity s → v ≠ s.state →
      set capacity (Sum.inl v) s =
        (true, ⟨evictWhile capacity (s.timeline.take (s.pointer.toNat + 1) ++ [v]),
                ((evictWhile capacity (s.timeline.take (s.pointer.toNat + 1) ++ [v])).length :
                  Int) - 1,
                v⟩)) ∧
      run 10 [HOp.back, HOp.back, HOp.write 9] (⟨[0, 1, 2, 3], 3, 3⟩ : HistState Int) =
        ⟨[0, 1, 9], 2, 9⟩ ∧
      run 3 [HOp.write 1, HOp.write 2, HOp.write 3] (init (0 : Int)) = ⟨[1, 2, 3], 2, 3⟩ := by
  refine ⟨?_, by decide, by decide⟩
  intro capacity s v hc hs hne
  obtain ⟨h1, h2, h3, h4, h5⟩ := hs
  have hguard : jsGet s.timeline s.pointer ≠ some v := by
    rw [h5]
    intro hcon
    exact hne (Option.some.inj hcon).symm
  exact setResolved_mutate capacity s v h3 h4 hguard

/-- C3 witness: writing 1 over the fresh store seeded with 0 at capacity 10
instantiates the normal form. -/
theorem c3_witness :
    set 10 (Sum.inl 1) (init (0 : Int)) =
      (true, ⟨evictWhile 10 ((init (0 : Int)).timeline.take
                ((init (0 : Int)).pointer.toNat + 1) ++ [1]),
              ((evictWhile 10 ((init (0 : Int)).timeline.take
                ((init (0 : Int)).pointer.toNat + 1) ++ [1])).length : Int) - 1,
              1⟩) :=
  c3_write_normal_form.1 10 (init 0) 1 (by decide) (by decide) (by decide)

/-- C4: for every capacity of at least 1 and every operation sequence issued
against a freshly constructed store, the timeline length stays between 1 and
the capacity.  Since the sequence is arbitrary, the bound holds after every
operation of any run. -/
theorem c4_timeline_length_bounds (capacity : Int) (v : Int) (ops : List (HOp Int))
    (hc : 1 ≤ capacity) :
    1 ≤ (run capacity ops (init v)).timeline.length ∧
      ((run capacity ops (init v)).timeline.length : Int) ≤ capacity := by
  have h := validState_run capacity hc (init v) (validState_init capacity hc v) ops
  exact ⟨h.1, h.2.1⟩

/-- C4 witness: capacity 2 with writes overflowing it. -/
theorem c4_witness :
    1 ≤ (run 2 [HOp.write 1, HOp.write 2, HOp.back, HOp.write 3]
          (init (0 : Int))).timeline.length ∧
      ((run 2 [HOp.write 1, HOp.write 2, HOp.back, HOp.write 3]
          (init (0 : Int))).timeline.length : Int) ≤ 2 :=
  c4_timeline_length_bounds 2 0 [HOp.write 1, HOp.write 2, HOp.back, HOp.write 3] (by decide)

/-- C5: after construction (the empty sequence) and after every operation
sequence, the visible state cell equals the timeline entry at the pointer:
the stored current value can never diverge from the timeline. -/
theorem c5_current_equals_timeline_at_pointer (capacity : Int) (v : Int)
    (ops : List (HOp Int)) (hc : 1 ≤ capacity) :
    jsGet (run capacity ops (init v)).timeline (run capacity ops (init v)).pointer =
      some (run capacity ops (init v)).state :=
  (validState_run capacity hc (init v) (validState_init capacity hc v) ops).2.2.2.2

/-- C5 witness: a run mixing writes and navigation at capacity 3. -/
theorem c5_witness :
    jsGet (run 3 [HOp.write 1, HOp.write 2, HOp.back, HOp.forward, HOp.write 5]
        (init (0 : Int))).timeline
      (run 3 [HOp.write 1, HOp.write 2, HOp.back, HOp.forward, HOp.write 5]
        (init (0 : Int))).pointer =
      some (run 3 [HOp.write 1, HOp.write 2, HOp.back, HOp.forward, HOp.write 5]
        (init (0 : Int))).state :=
  c5_current_equals_timeline_at_pointer 3 0
    [HOp.write 1, HOp.write 2, HOp.back, HOp.forward, HOp.write 5] (by decide)

/-- C10: with capacity at least 2, every state-changing write followed
immediately by undo succeeds and restores the visible value to the value from
just before the write, eviction included: the write keeps at least the entry
the pointer sat on, so undo lands back on it. -/
theorem c10_write_then_undo_restores (capacity : Int) (s : HistState Int)
    (w : Int ⊕ (Int → Int)) (hc : 2 ≤ capacity) (hs : validState capacity s)
    (hchanged : (set capacity w s).1 = true) :
    (back (set capacity w s).2).1 = true ∧
      (back (set capacity w s).2).2.state = s.state := by
  obtain ⟨h1, h2, h3, h4, h5⟩ := hs
  have hguard : jsGet s.timeline s.pointer ≠ some (resolve w s) := by
    intro hcon
    rw [UseHistory.set, setResolved, if_neg (by simp [hcon])] at hchanged
    simp at hchanged
  have hset : UseHistory.set capacity w s = setResolved capacity (resolve w s) s := rfl
  rw [hset, setResolved_mutate capacity s (resolve w s) h3 h4 hguard]
  set rv := resolve w s with hrv
  set t1 := s.timeline.take (s.pointer.toNat + 1) with ht1
  have htake : t1.length = s.pointer.toNat + 1 := by
    rw [ht1, List.length_take]
    omega
  have hconcat := evictWhile_concat capacity (by omega) t1 rv
  set k := (((t1 ++ [rv]).length : Int) - capacity).toNat with hk
  have hkval : k ≤ s.pointer.toNat := by
    rw [hk]
    simp only [List.length_append, List.length_singleton, htake]
    omega
  set ys := t1.drop k with hys
  have hyslen : ys.length = t1.length - k := List.length_drop k t1
  have hys1 : 1 ≤ ys.length := by omega
  have hElen : (evictWhile capacity (t1 ++ [rv])).length = ys.length + 1 := by
    rw [hconcat]
    simp
  -- the timeline entry preceding the pushed value is the old current value
  have hprev : jsGet (ys ++ [rv]) ((ys.length : Int) - 1) = some s.state := by
    rw [jsGet_eq_get? _ _ (by omega)]
    have hidx : ((ys.length : Int) - 1).toNat = ys.length - 1 := by omega
    rw [hidx, List.get?_append (by omega), hys, List.get?_drop]
    have hpidx : k + (ys.length - 1) = s.pointer.toNat := by omega
    rw [hpidx, ht1, List.get?_take (by omega)]
    rw [jsGet_eq_get? _ _ h3] at h5
    exact h5
  rw [back]
  rw [if_neg (by rw [hElen]; push_cast; omega)]
  constructor
  · trivial
  · have hidx2 : ((evictWhile capacity (t1 ++ [rv])).length : Int) - 1 - 1 =
        ((ys.length : Int)) - 1 := by
      rw [hElen]
      push_cast
      ring
    rw [jsGetD, hidx2, hconcat, hprev]
    rfl

/-- C10 witness: at capacity 2 the write of 2 over the full store [0, 1]
evicts the oldest entry, and undo still restores the current value 1. -/
theorem c10_witness :
    (back (set 2 (Sum.inl 2) (⟨[0, 1], 1, 1⟩ : HistState Int)).2).1 = true ∧
      (back (set 2 (Sum.inl 2) (⟨[0, 1], 1, 1⟩ : HistState Int)).2).2.state =
        (⟨[0, 1], 1, 1⟩ : HistState Int).state :=
  c10_write_then_undo_restores 2 ⟨[0, 1], 1, 1⟩ (Sum.inl 2) (by decide) (by decide) (by decide)

end UseHistoryClaims

section Sanity

open UseHistory

example : evictWhile 3 ([0, 1, 2, 3] : List Int) = [1, 2, 3] := by decide

example : run 3 [HOp.write 1, HOp.write 2, HOp.write 3] (init (0 : Int)) =
    ⟨[1, 2, 3], 2, 3⟩ := by decide

example : run 10 [HOp.back, HOp.back, HOp.write 9]
    (⟨[0, 1, 2, 3], 3, 3⟩ : HistState Int) = ⟨[0, 1, 9], 2, 9⟩ := by decide

example : go 1 (⟨[10, 20], 0, 10⟩ : HistState Int) = (false, ⟨[10, 20], 0, 10⟩) := by decide

end Sanity
